import Mathlib

/-!
Verification of the continuous-time rational-expectations solver in
src/ct_re_solver.py.

The source is a single routine, solver(A, N).  For an M-by-M real matrix A and
state dimension N it

  line 44: computes a real Schur decomposition U, Q, n_neg = linalg.schur(A, sort=lhp),
           with the eigenvalues of negative real part ordered first;
  line 45: asserts n_neg == N (the Blanchard-Kahn determinacy condition), raising
           an AssertionError carrying N and n_neg otherwise;
  line 50: computes B = np.linalg.solve(Q[:N,:N].T, (Q[:N,:N] @ U[:N,:N]).T).T;
  line 51: computes F = np.linalg.solve(Q[:N,:N].T, Q[N:,:N].T).T;
  line 53: returns (B, F).

The embedding below is exact-arithmetic over an arbitrary linear ordered field
(instantiated at ℚ in concrete computations).  The full dimension M is split at
the type level as Fin N ⊕ Fin nJ with nJ = M - N, so the slices Q[:N,:N],
Q[N:,:N], U[:N,:N] of the source are the partition blocks toBlocks₁₁ Q,
toBlocks₂₁ Q, toBlocks₁₁ U.  The backend decomposition routine is passed to the
solver as a function, and its documented guarantees are collected in the
contract predicate IsSortedSchur.
-/

namespace CtReSolver

open Matrix

variable {K : Type*} [LinearOrderedField K]

/-- Square M-by-M matrices, M = N + nJ, partitioned at row/column index N into
the N state coordinates (Sum.inl) and the nJ jump coordinates (Sum.inr). -/
abbrev SqMat (K : Type*) (N nJ : ℕ) : Type _ :=
  Matrix (Fin N ⊕ Fin nJ) (Fin N ⊕ Fin nJ) K

/-- The triple returned by the backend call U, Q, n_neg = linalg.schur(A, sort=lhp)
on line 44 of the source: the quasi-triangular factor U, the orthogonal factor Q,
and the reported count n_neg of eigenvalues with strictly negative real part. -/
structure SchurResult (K : Type*) (N nJ : ℕ) where
  U : SqMat K N nJ
  Q : SqMat K N nJ
  n_neg : ℕ

/-- The two failure modes of solver: the assert on line 45 (an AssertionError
whose message carries both N and n_neg) and the LinAlgError that
np.linalg.solve raises when its coefficient matrix is singular. -/
inductive SolverError : Type where
  | blanchardKahn (states : ℕ) (negEigenvalues : ℕ)
  | singularMatrix
  deriving DecidableEq

instance {ε α : Type*} [DecidableEq ε] [DecidableEq α] : DecidableEq (Except ε α) := fun x y =>
  match x, y with
  | .error a, .error b => if h : a = b then .isTrue (by rw [h]) else .isFalse (by simp [h])
  | .ok a, .ok b => if h : a = b then .isTrue (by rw [h]) else .isFalse (by simp [h])
  | .error _, .ok _ => .isFalse (by simp)
  | .ok _, .error _ => .isFalse (by simp)

/-- Executable inverse of a square matrix over a field, det⁻¹ • adjugate.  It
agrees with the Mathlib nonsingular inverse (matInv_eq_inv below). -/
def matInv {n : Type*} [Fintype n] [DecidableEq n] (a : Matrix n n K) : Matrix n n K :=
  a.det⁻¹ • a.adjugate

theorem matInv_eq_inv {n : Type*} [Fintype n] [DecidableEq n] (a : Matrix n n K) :
    matInv a = a⁻¹ := by
  rw [matInv, Matrix.inv_def, Ring.inverse_eq_inv]

/-- Exact-arithmetic model of np.linalg.solve(a, b): the solution a⁻¹ * b of the
system a · X = b, or the LinAlgError raised exactly when a is singular. -/
def npSolve {n m : Type*} [Fintype n] [DecidableEq n] (a : Matrix n n K)
    (b : Matrix n m K) : Except SolverError (Matrix n m K) :=
  if a.det = 0 then .error .singularMatrix else .ok (matInv a * b)

theorem npSolve_of_det_ne {n m : Type*} [Fintype n] [DecidableEq n]
    {a : Matrix n n K} (b : Matrix n m K) (h : a.det ≠ 0) :
    npSolve a b = .ok (matInv a * b) := by
  rw [npSolve, if_neg h]

theorem npSolve_of_det_eq {n m : Type*} [Fintype n] [DecidableEq n]
    {a : Matrix n n K} (b : Matrix n m K) (h : a.det = 0) :
    npSolve a b = .error .singularMatrix := by
  rw [npSolve, if_pos h]

/-- Lines 45 to 53 of the source, consuming the backend result: the
Blanchard-Kahn assert, the two transpose-solves, and the returned pair.  These
lines read only U, Q and n_neg. -/
def solverFromSchur {N nJ : ℕ} (sd : SchurResult K N nJ) :
    Except SolverError (Matrix (Fin N) (Fin N) K × Matrix (Fin nJ) (Fin N) K) :=
  if sd.n_neg = N then
    match npSolve (Matrix.toBlocks₁₁ sd.Q)ᵀ ((Matrix.toBlocks₁₁ sd.Q * Matrix.toBlocks₁₁ sd.U))ᵀ with
    | .error e => .error e
    | .ok Bt =>
      match npSolve (Matrix.toBlocks₁₁ sd.Q)ᵀ (Matrix.toBlocks₂₁ sd.Q)ᵀ with
      | .error e => .error e
      | .ok Ft => .ok (Btᵀ, Ftᵀ)
  else .error (.blanchardKahn N sd.n_neg)

/-- Shallow embedding of solver(A, N) from src/ct_re_solver.py.  The state
dimension N and jump dimension nJ = M - N are type-level parameters; the
backend routine linalg.schur(·, sort=lhp) is the function argument schur, so
line 44 is the application schur A and the remaining lines are
solverFromSchur. -/
def solver {N nJ : ℕ} (schur : SqMat K N nJ → SchurResult K N nJ)
    (A : SqMat K N nJ) :
    Except SolverError (Matrix (Fin N) (Fin N) K × Matrix (Fin nJ) (Fin N) K) :=
  solverFromSchur (schur A)

/-- Contract of the lhp-sorted real Schur decomposition returned by the backend,
under the exact-arithmetic embedding: A = Q U Qᵀ with Q orthogonal, and, when
the reported stable count equals N (so that no 2-by-2 block of the real Schur
form straddles the partition index N), the lower-left block of the partition of
U vanishes — the leading N columns of Q span an invariant subspace of A. -/
def IsSortedSchur {N nJ : ℕ} (A : SqMat K N nJ) (sd : SchurResult K N nJ) : Prop :=
  sd.Q * sd.U * sd.Qᵀ = A ∧ sd.Qᵀ * sd.Q = 1 ∧
    (sd.n_neg = N → Matrix.toBlocks₂₁ sd.U = 0)

/-- C2: if the reported stable count differs from N the solver fails at once with
the Blanchard-Kahn determinacy error carrying both N and n_neg — whatever the
factors U and Q are, so in particular before and independently of any linear
solve; and if the count equals N the determinacy check passes: no
Blanchard-Kahn error can be the result. -/
theorem determinacy_check_first {N nJ : ℕ}
    (schur : SqMat K N nJ → SchurResult K N nJ) (A : SqMat K N nJ) :
    ((schur A).n_neg ≠ N →
      solver schur A = .error (.blanchardKahn N (schur A).n_neg)) ∧
    ((schur A).n_neg = N →
      ∀ s t, solver schur A ≠ .error (.blanchardKahn s t)) := by
  constructor
  · intro h
    rw [solver, solverFromSchur, if_neg h]
  · intro h s t
    rw [solver, solverFromSchur, if_pos h]
    by_cases hdet : ((Matrix.toBlocks₁₁ (schur A).Q)ᵀ).det = 0
    · rw [npSolve_of_det_eq _ hdet]
      simp
    · rw [npSolve_of_det_ne _ hdet, npSolve_of_det_ne _ hdet]
      simp

theorem determinacy_check_first_witness :
    solver (fun _ => (⟨1, 1, 2⟩ : SchurResult ℚ 1 1)) 1
        = .error (.blanchardKahn 1 2) ∧
    ∀ s t, solver (fun _ => (⟨1, 1, 1⟩ : SchurResult ℚ 1 1)) 1
        ≠ .error (.blanchardKahn s t) :=
  ⟨(determinacy_check_first (fun _ => (⟨1, 1, 2⟩ : SchurResult ℚ 1 1)) 1).1 (by decide),
   (determinacy_check_first (fun _ => (⟨1, 1, 1⟩ : SchurResult ℚ 1 1)) 1).2 (by decide)⟩

/-- Undoing the double transpose: the value the transpose-solve produces is
right-multiplication by the executable inverse. -/
theorem transpose_solve_eq {n m : Type*} [Fintype n] [DecidableEq n] [Fintype m]
    (a : Matrix n n K) (c : Matrix m n K) :
    (matInv aᵀ * cᵀ)ᵀ = c * matInv a := by
  rw [matInv_eq_inv, matInv_eq_inv, Matrix.transpose_mul, Matrix.transpose_transpose,
    ← Matrix.transpose_nonsing_inv, Matrix.transpose_transpose]

/-- The state block of the identity decomposition factor is the identity, with
determinant one. -/
theorem det_toBlocks₁₁_one {N nJ : ℕ} :
    (Matrix.toBlocks₁₁ (1 : SqMat K N nJ)).det = 1 := by
  rw [← Matrix.fromBlocks_one, Matrix.toBlocks_fromBlocks₁₁, Matrix.det_one]

/-- Forward evaluation of the post-decomposition code on the success path:
when the Blanchard-Kahn count matches and the stable-to-state block Q_xs is
nonsingular, the two transpose-solve results are returned, in closed form. -/
theorem solverFromSchur_eq_ok {N nJ : ℕ} (sd : SchurResult K N nJ)
    (hn : sd.n_neg = N) (hdet : (Matrix.toBlocks₁₁ sd.Q).det ≠ 0) :
    solverFromSchur sd = .ok
      ((Matrix.toBlocks₁₁ sd.Q * Matrix.toBlocks₁₁ sd.U) *
          matInv (Matrix.toBlocks₁₁ sd.Q),
        Matrix.toBlocks₂₁ sd.Q * matInv (Matrix.toBlocks₁₁ sd.Q)) := by
  have hdt : ((Matrix.toBlocks₁₁ sd.Q)ᵀ).det ≠ 0 := by
    rwa [Matrix.det_transpose]
  rw [solverFromSchur, if_pos hn, npSolve_of_det_ne _ hdt, npSolve_of_det_ne _ hdt]
  exact congrArg Except.ok
    (congrArg₂ Prod.mk (transpose_solve_eq _ _) (transpose_solve_eq _ _))

/-- Forward evaluation of solver on the success path. -/
theorem solver_eq_ok {N nJ : ℕ} (schur : SqMat K N nJ → SchurResult K N nJ)
    (A : SqMat K N nJ) (hn : (schur A).n_neg = N)
    (hdet : (Matrix.toBlocks₁₁ (schur A).Q).det ≠ 0) :
    solver schur A = .ok
      ((Matrix.toBlocks₁₁ (schur A).Q * Matrix.toBlocks₁₁ (schur A).U) *
          matInv (Matrix.toBlocks₁₁ (schur A).Q),
        Matrix.toBlocks₂₁ (schur A).Q * matInv (Matrix.toBlocks₁₁ (schur A).Q)) :=
  solverFromSchur_eq_ok (schur A) hn hdet

/-- Inversion of the success path: a returned pair (B, F) forces the matched
count, the nonsingular Q_xs, and the closed forms of B and F. -/
theorem solver_ok_inv {N nJ : ℕ} {schur : SqMat K N nJ → SchurResult K N nJ}
    {A : SqMat K N nJ} {B : Matrix (Fin N) (Fin N) K} {F : Matrix (Fin nJ) (Fin N) K}
    (hok : solver schur A = .ok (B, F)) :
    (schur A).n_neg = N ∧ (Matrix.toBlocks₁₁ (schur A).Q).det ≠ 0 ∧
      B = (Matrix.toBlocks₁₁ (schur A).Q * Matrix.toBlocks₁₁ (schur A).U) *
            matInv (Matrix.toBlocks₁₁ (schur A).Q) ∧
      F = Matrix.toBlocks₂₁ (schur A).Q * matInv (Matrix.toBlocks₁₁ (schur A).Q) := by
  by_cases hn : (schur A).n_neg = N
  · by_cases hdet : (Matrix.toBlocks₁₁ (schur A).Q).det = 0
    · have hdt : ((Matrix.toBlocks₁₁ (schur A).Q)ᵀ).det = 0 := by
        rwa [Matrix.det_transpose]
      rw [solver, solverFromSchur, if_pos hn, npSolve_of_det_eq _ hdt] at hok
      simp at hok
    · rw [solver_eq_ok schur A hn hdet] at hok
      have := (Except.ok.injEq _ _).mp hok
      exact ⟨hn, hdet, (congrArg Prod.fst this).symm, (congrArg Prod.snd this).symm⟩
  · rw [solver, solverFromSchur, if_neg hn] at hok
    simp at hok

/-- Reference definition from the spec: B = Q_xs · U_ss · Q_xs⁻¹, written with
the explicit inverse that the implementation is meant to avoid forming. -/
def B_spec {N nJ : ℕ} (sd : SchurResult K N nJ) : Matrix (Fin N) (Fin N) K :=
  Matrix.toBlocks₁₁ sd.Q * Matrix.toBlocks₁₁ sd.U * matInv (Matrix.toBlocks₁₁ sd.Q)

/-- Reference definition from the spec: F = Q_ys · Q_xs⁻¹. -/
def F_spec {N nJ : ℕ} (sd : SchurResult K N nJ) : Matrix (Fin nJ) (Fin N) K :=
  Matrix.toBlocks₂₁ sd.Q * matInv (Matrix.toBlocks₁₁ sd.Q)

/-- C4: the implementation computes B and F by the two transpose-solves of
lines 50 and 51; whenever the leading block Q_xs of the decomposition is
invertible (and the determinacy check passes, so the solves are reached), the
pair it returns is exactly the reference pair B = Q_xs · U_ss · Q_xs⁻¹ and
F = Q_ys · Q_xs⁻¹ of the spec. -/
theorem transpose_solves_match_reference {N nJ : ℕ}
    (schur : SqMat K N nJ → SchurResult K N nJ) (A : SqMat K N nJ)
    (hn : (schur A).n_neg = N)
    (hdet : (Matrix.toBlocks₁₁ (schur A).Q).det ≠ 0) :
    solver schur A = .ok (B_spec (schur A), F_spec (schur A)) := by
  rw [solver_eq_ok schur A hn hdet, B_spec, F_spec, Matrix.mul_assoc]

/-- The 2-by-2 matrix diag(-1, 1), one stable and one unstable eigenvalue with
the stable one in the state position. -/
def Adiag : SqMat ℚ 1 1 :=
  Matrix.fromBlocks (Matrix.of fun _ _ => -1) 0 0 (Matrix.of fun _ _ => 1)

/-- The lhp-sorted Schur decomposition of Adiag with the identity factor:
U = Adiag itself, Q = I, one stable eigenvalue. -/
def sdId : SchurResult ℚ 1 1 := ⟨Adiag, 1, 1⟩

theorem sdId_sorted : IsSortedSchur Adiag sdId :=
  ⟨by simp [sdId], by simp [sdId], fun _ => by
    simp [sdId, Adiag, Matrix.toBlocks_fromBlocks₂₁]⟩

theorem sdId_Qxs_det : (Matrix.toBlocks₁₁ sdId.Q).det = 1 := by
  have h : sdId.Q = (1 : SqMat ℚ 1 1) := rfl
  rw [h, det_toBlocks₁₁_one]

theorem transpose_solves_match_reference_witness :
    (sdId.n_neg = 1 ∧ (Matrix.toBlocks₁₁ sdId.Q).det ≠ 0) ∧
    solver (fun _ => sdId) Adiag = .ok (B_spec sdId, F_spec sdId) :=
  ⟨⟨rfl, by rw [sdId_Qxs_det]; exact one_ne_zero⟩,
    transpose_solves_match_reference (fun _ => sdId) Adiag rfl
      (by rw [sdId_Qxs_det]; exact one_ne_zero)⟩

/-- Forward evaluation of solver on the degenerate path: matched count but
singular Q_xs makes the first transpose-solve raise the LinAlgError. -/
theorem solver_of_det_zero {N nJ : ℕ}
    (schur : SqMat K N nJ → SchurResult K N nJ) (A : SqMat K N nJ)
    (hn : (schur A).n_neg = N)
    (hdet : (Matrix.toBlocks₁₁ (schur A).Q).det = 0) :
    solver schur A = .error .singularMatrix := by
  have hdt : ((Matrix.toBlocks₁₁ (schur A).Q)ᵀ).det = 0 := by
    rwa [Matrix.det_transpose]
  rw [solver, solverFromSchur, if_pos hn, npSolve_of_det_eq _ hdt]

/-- C7: on an input that passes the determinacy check but whose block Q_xs is
singular, the first linear solve raises the degeneracy failure, and that
failure is a different error constructor from the Blanchard-Kahn mismatch. -/
theorem singular_Qxs_degeneracy {N nJ : ℕ}
    (schur : SqMat K N nJ → SchurResult K N nJ) (A : SqMat K N nJ)
    (hS : IsSortedSchur A (schur A)) (hn : (schur A).n_neg = N)
    (hdet : (Matrix.toBlocks₁₁ (schur A).Q).det = 0) :
    solver schur A = .error .singularMatrix ∧
      ∀ s t, SolverError.singularMatrix ≠ SolverError.blanchardKahn s t :=
  ⟨solver_of_det_zero schur A hn hdet, fun s t => by simp⟩

/-- The 2-by-2 permutation that swaps the state and the jump coordinate. -/
def swapQ : SqMat ℚ 1 1 :=
  Matrix.fromBlocks 0 (Matrix.of fun _ _ => 1) (Matrix.of fun _ _ => 1) 0

/-- The 2-by-2 matrix diag(1, -1): one stable eigenvalue, but carried by the
jump coordinate, not the state coordinate. -/
def AdiagRev : SqMat ℚ 1 1 :=
  Matrix.fromBlocks (Matrix.of fun _ _ => 1) 0 0 (Matrix.of fun _ _ => -1)

/-- The lhp-sorted Schur decomposition of AdiagRev: U = diag(-1, 1), Q the swap
permutation, one stable eigenvalue.  Its block Q_xs is the 1-by-1 zero matrix. -/
def sdSwap : SchurResult ℚ 1 1 := ⟨Adiag, swapQ, 1⟩

theorem sdSwap_sorted : IsSortedSchur AdiagRev sdSwap := by
  refine ⟨?_, ?_, fun _ => ?_⟩
  · ext i j
    rcases i with i | i <;> rcases j with j | j <;>
      simp [sdSwap, swapQ, Adiag, AdiagRev, Matrix.mul_apply, Fintype.sum_sum_type]
  · ext i j
    rcases i with i | i <;> rcases j with j | j <;>
      simp [sdSwap, swapQ, Matrix.mul_apply, Fintype.sum_sum_type, Matrix.one_apply,
        Fin.eq_zero]
  · simp [sdSwap, Adiag, Matrix.toBlocks_fromBlocks₂₁]

theorem sdSwap_Qxs_det : (Matrix.toBlocks₁₁ sdSwap.Q).det = 0 := by
  have h : sdSwap.Q = Matrix.fromBlocks 0 (Matrix.of fun _ _ => (1 : ℚ))
      (Matrix.of fun _ _ => 1) 0 := rfl
  rw [h, Matrix.toBlocks_fromBlocks₁₁]
  exact Matrix.det_zero ⟨0⟩

theorem singular_Qxs_degeneracy_witness :
    (IsSortedSchur AdiagRev sdSwap ∧ sdSwap.n_neg = 1 ∧
      (Matrix.toBlocks₁₁ sdSwap.Q).det = 0) ∧
    solver (fun _ => sdSwap) AdiagRev = .error .singularMatrix :=
  ⟨⟨sdSwap_sorted, rfl, sdSwap_Qxs_det⟩,
    (singular_Qxs_degeneracy (fun _ => sdSwap) AdiagRev sdSwap_sorted rfl
      sdSwap_Qxs_det).1⟩

theorem toBlocks₁₁_one {N nJ : ℕ} :
    Matrix.toBlocks₁₁ (1 : SqMat K N nJ) = 1 := by
  rw [← Matrix.fromBlocks_one, Matrix.toBlocks_fromBlocks₁₁]

theorem toBlocks₂₁_one {N nJ : ℕ} :
    Matrix.toBlocks₂₁ (1 : SqMat K N nJ) = 0 := by
  rw [← Matrix.fromBlocks_one, Matrix.toBlocks_fromBlocks₂₁]

theorem matInv_one {n : Type*} [Fintype n] [DecidableEq n] :
    matInv (1 : Matrix n n K) = 1 := by
  rw [matInv, Matrix.det_one, Matrix.adjugate_one, inv_one, one_smul]

/-- Right-multiplying a partitioned square matrix by the stacked matrix
[I; 0] selects its first block column. -/
theorem mul_colSel {N nJ : ℕ} (X : SqMat K N nJ) :
    X * Matrix.fromRows (1 : Matrix (Fin N) (Fin N) K) (0 : Matrix (Fin nJ) (Fin N) K) =
      Matrix.fromRows (Matrix.toBlocks₁₁ X) (Matrix.toBlocks₂₁ X) := by
  conv_lhs => rw [← Matrix.fromBlocks_toBlocks X]
  rw [Matrix.fromBlocks_mul_fromRows]
  simp

/-- The leading N columns of Q span an invariant subspace of A: multiplying the
stacked first block column of Q by A equals multiplying it by U_ss on the
right.  This uses A = Q U Qᵀ, orthogonality, and the vanishing lower-left
block of U. -/
theorem stable_columns_invariant {N nJ : ℕ} {A : SqMat K N nJ}
    {sd : SchurResult K N nJ} (hS : IsSortedSchur A sd)
    (hU : Matrix.toBlocks₂₁ sd.U = 0) :
    A * Matrix.fromRows (Matrix.toBlocks₁₁ sd.Q) (Matrix.toBlocks₂₁ sd.Q) =
      Matrix.fromRows (Matrix.toBlocks₁₁ sd.Q) (Matrix.toBlocks₂₁ sd.Q) *
        Matrix.toBlocks₁₁ sd.U := by
  have hAQ : A * sd.Q = sd.Q * sd.U := by
    rw [← hS.1, Matrix.mul_assoc (sd.Q * sd.U) sd.Qᵀ sd.Q, hS.2.1, Matrix.mul_one]
  calc A * Matrix.fromRows (Matrix.toBlocks₁₁ sd.Q) (Matrix.toBlocks₂₁ sd.Q)
      = A * (sd.Q * Matrix.fromRows 1 0) := by rw [mul_colSel]
    _ = (A * sd.Q) * Matrix.fromRows 1 0 := (Matrix.mul_assoc A sd.Q _).symm
    _ = (sd.Q * sd.U) * Matrix.fromRows 1 0 := by rw [hAQ]
    _ = sd.Q * (sd.U * Matrix.fromRows 1 0) := Matrix.mul_assoc sd.Q sd.U _
    _ = sd.Q * Matrix.fromRows (Matrix.toBlocks₁₁ sd.U) 0 := by rw [mul_colSel, hU]
    _ = sd.Q * (Matrix.fromRows 1 0 * Matrix.toBlocks₁₁ sd.U) := by
        rw [Matrix.fromRows_mul]
        simp
    _ = (sd.Q * Matrix.fromRows 1 0) * Matrix.toBlocks₁₁ sd.U :=
        (Matrix.mul_assoc sd.Q _ _).symm
    _ = Matrix.fromRows (Matrix.toBlocks₁₁ sd.Q) (Matrix.toBlocks₂₁ sd.Q) *
          Matrix.toBlocks₁₁ sd.U := by rw [mul_colSel]

/-- C1: the fundamental correctness law.  Whenever solver succeeds with a pair
(B, F) obtained from an lhp-sorted Schur decomposition of A, the block
relation A · [I; F] = [B; F · B] holds exactly in the exact-arithmetic
embedding. -/
theorem solver_law_of_motion {N nJ : ℕ}
    (schur : SqMat K N nJ → SchurResult K N nJ) (A : SqMat K N nJ)
    (B : Matrix (Fin N) (Fin N) K) (F : Matrix (Fin nJ) (Fin N) K)
    (hS : IsSortedSchur A (schur A)) (hok : solver schur A = .ok (B, F)) :
    A * Matrix.fromRows (1 : Matrix (Fin N) (Fin N) K) F =
      Matrix.fromRows B (F * B) := by
  obtain ⟨hn, hdet, hB, hF⟩ := solver_ok_inv hok
  have hU : Matrix.toBlocks₂₁ (schur A).U = 0 := hS.2.2 hn
  have hunit : IsUnit (Matrix.toBlocks₁₁ (schur A).Q).det := isUnit_iff_ne_zero.mpr hdet
  have hright : Matrix.toBlocks₁₁ (schur A).Q * matInv (Matrix.toBlocks₁₁ (schur A).Q) = 1 := by
    rw [matInv_eq_inv]
    exact Matrix.mul_nonsing_inv _ hunit
  have hleft : matInv (Matrix.toBlocks₁₁ (schur A).Q) * Matrix.toBlocks₁₁ (schur A).Q = 1 := by
    rw [matInv_eq_inv]
    exact Matrix.nonsing_inv_mul _ hunit
  have hIF : Matrix.fromRows (1 : Matrix (Fin N) (Fin N) K) F =
      Matrix.fromRows (Matrix.toBlocks₁₁ (schur A).Q) (Matrix.toBlocks₂₁ (schur A).Q) *
        matInv (Matrix.toBlocks₁₁ (schur A).Q) := by
    rw [Matrix.fromRows_mul, hright, hF]
  have hFB : F * B = Matrix.toBlocks₂₁ (schur A).Q *
      (Matrix.toBlocks₁₁ (schur A).U * matInv (Matrix.toBlocks₁₁ (schur A).Q)) := by
    rw [hF, hB]
    simp only [Matrix.mul_assoc]
    rw [← Matrix.mul_assoc (matInv (Matrix.toBlocks₁₁ (schur A).Q))
      (Matrix.toBlocks₁₁ (schur A).Q)
      (Matrix.toBlocks₁₁ (schur A).U * matInv (Matrix.toBlocks₁₁ (schur A).Q)), hleft,
      Matrix.one_mul]
  rw [hIF, ← Matrix.mul_assoc, stable_columns_invariant hS hU, hFB, hB]
  simp only [Matrix.mul_assoc]
  rw [← Matrix.fromRows_mul]

/-- Evaluation of solver on the identity-factor decomposition of diag(-1, 1):
it succeeds with B = [-1] and F = [0]. -/
theorem solver_sdId_eval :
    solver (fun _ => sdId) Adiag = .ok (Matrix.of fun _ _ => (-1 : ℚ), 0) := by
  have hdet : (Matrix.toBlocks₁₁ sdId.Q).det ≠ 0 := by
    rw [sdId_Qxs_det]
    exact one_ne_zero
  rw [solver_eq_ok (fun _ => sdId) Adiag rfl hdet]
  have hQ : Matrix.toBlocks₁₁ (sdId.Q) = 1 := toBlocks₁₁_one
  have hQ2 : Matrix.toBlocks₂₁ (sdId.Q) = 0 := toBlocks₂₁_one
  have hU : Matrix.toBlocks₁₁ (sdId.U) = Matrix.of fun _ _ => (-1 : ℚ) := by
    have h : sdId.U = Adiag := rfl
    rw [h, Adiag, Matrix.toBlocks_fromBlocks₁₁]
  rw [hQ, hQ2, hU, matInv_one]
  simp

theorem solver_law_of_motion_witness :
    (IsSortedSchur Adiag ((fun _ => sdId) Adiag) ∧
      solver (fun _ => sdId) Adiag = .ok (Matrix.of fun _ _ => (-1 : ℚ), 0)) ∧
    Adiag * Matrix.fromRows (1 : Matrix (Fin 1) (Fin 1) ℚ) 0 =
      Matrix.fromRows (Matrix.of fun _ _ => (-1 : ℚ))
        ((0 : Matrix (Fin 1) (Fin 1) ℚ) * Matrix.of fun _ _ => (-1 : ℚ)) :=
  ⟨⟨sdId_sorted, solver_sdId_eval⟩,
    solver_law_of_motion (fun _ => sdId) Adiag (Matrix.of fun _ _ => (-1 : ℚ)) 0
      sdId_sorted solver_sdId_eval⟩

/-- Orthogonality forces the full factor Q to be nonsingular; with no jump
coordinates (nJ = 0) the state block Q_xs is all of Q, hence nonsingular. -/
theorem det_toBlocks₁₁_of_orth {M : ℕ} {Q : SqMat K M 0} (hO : Qᵀ * Q = 1) :
    (Matrix.toBlocks₁₁ Q).det ≠ 0 := by
  have hdet : Q.det * Q.det = 1 := by
    have h := congrArg Matrix.det hO
    rwa [Matrix.det_mul, Matrix.det_transpose, Matrix.det_one] at h
  have hQdet : Q.det ≠ 0 := by
    intro h
    rw [h, mul_zero] at hdet
    exact zero_ne_one hdet
  have hsub : Matrix.toBlocks₁₁ Q =
      Q.submatrix (Equiv.sumEmpty (Fin M) (Fin 0)).symm (Equiv.sumEmpty (Fin M) (Fin 0)).symm := by
    ext i j
    rfl
  rw [hsub, Matrix.det_submatrix_equiv_self]
  exact hQdet

/-- Forward evaluation of solver at state dimension zero: the determinacy check
compares n_neg with 0, the solves are on empty blocks whose coefficient matrix
has determinant one, and the returned matrices are the empty ones. -/
theorem solver_N0_ok {M : ℕ} (schur : SqMat K 0 M → SchurResult K 0 M)
    (A : SqMat K 0 M) (h0 : (schur A).n_neg = 0) :
    solver schur A = .ok (0, 0) := by
  have hdet : (Matrix.toBlocks₁₁ (schur A).Q).det ≠ 0 := by
    rw [Matrix.det_isEmpty]
    exact one_ne_zero
  rw [solver_eq_ok schur A h0 hdet]
  refine congrArg Except.ok (congrArg₂ Prod.mk ?_ ?_)
  · ext i j
    exact i.elim0
  · ext i j
    exact j.elim0

/-- C10: the boundary state dimensions are accepted whenever the reported
stable count matches.  With N = 0 (and A having no stable eigenvalue, so
n_neg = 0) solver succeeds and returns the empty 0-by-0 matrix B and the
M-by-0 matrix F; with N = M (all eigenvalues stable, n_neg = M) solver
succeeds and returns an M-by-M B and a 0-by-M F. -/
theorem boundary_counts_accepted {M : ℕ} :
    (∀ (schur : SqMat K 0 M → SchurResult K 0 M) (A : SqMat K 0 M),
        IsSortedSchur A (schur A) → (schur A).n_neg = 0 →
        solver schur A = .ok (0, 0)) ∧
    (∀ (schur : SqMat K M 0 → SchurResult K M 0) (A : SqMat K M 0),
        IsSortedSchur A (schur A) → (schur A).n_neg = M →
        ∃ (B : Matrix (Fin M) (Fin M) K) (F : Matrix (Fin 0) (Fin M) K),
          solver schur A = .ok (B, F)) := by
  constructor
  · intro schur A _ h0
    exact solver_N0_ok schur A h0
  · intro schur A hS hM
    exact ⟨_, _, solver_eq_ok schur A hM (det_toBlocks₁₁_of_orth hS.2.1)⟩

/-- The 1-by-1 matrix [1] viewed with state dimension N = 0: its only
eigenvalue is unstable. -/
def Aempty : SqMat ℚ 0 1 := Matrix.of fun _ _ => 1

/-- The trivial lhp-sorted Schur decomposition of Aempty: U = A, Q = I, no
stable eigenvalue. -/
def sdEmpty : SchurResult ℚ 0 1 := ⟨Aempty, 1, 0⟩

theorem sdEmpty_sorted : IsSortedSchur Aempty sdEmpty :=
  ⟨by simp [sdEmpty], by simp [sdEmpty], fun _ => by
    ext i j
    exact j.elim0⟩

/-- The 1-by-1 matrix [-1] viewed with state dimension N = 1 = M: its only
eigenvalue is stable. -/
def Afull : SqMat ℚ 1 0 := Matrix.of fun _ _ => -1

/-- The trivial lhp-sorted Schur decomposition of Afull: U = A, Q = I, one
stable eigenvalue. -/
def sdFull : SchurResult ℚ 1 0 := ⟨Afull, 1, 1⟩

theorem sdFull_sorted : IsSortedSchur Afull sdFull :=
  ⟨by simp [sdFull], by simp [sdFull], fun _ => by
    ext i j
    exact i.elim0⟩

theorem boundary_counts_accepted_witness :
    ((IsSortedSchur Aempty ((fun _ => sdEmpty) Aempty) ∧ sdEmpty.n_neg = 0) ∧
      solver (fun _ => sdEmpty) Aempty = .ok (0, 0)) ∧
    ((IsSortedSchur Afull ((fun _ => sdFull) Afull) ∧ sdFull.n_neg = 1) ∧
      ∃ (B : Matrix (Fin 1) (Fin 1) ℚ) (F : Matrix (Fin 0) (Fin 1) ℚ),
        solver (fun _ => sdFull) Afull = .ok (B, F)) :=
  ⟨⟨⟨sdEmpty_sorted, rfl⟩,
      boundary_counts_accepted.1 (fun _ => sdEmpty) Aempty sdEmpty_sorted rfl⟩,
    ⟨⟨sdFull_sorted, rfl⟩,
      boundary_counts_accepted.2 (fun _ => sdFull) Afull sdFull_sorted rfl⟩⟩

/-- C3 counterexample: at N = 0 with the 1-by-1 matrix A = [1] (whose only
eigenvalue is unstable, so the reported stable count is 0), solver does not
fail at all — no invalid-dimension failure exists in the code, the
decomposition is consumed and the call succeeds with empty matrices. -/
theorem no_invalid_dimension_failure :
    IsSortedSchur Aempty sdEmpty ∧
      solver (fun _ => sdEmpty) Aempty = .ok (0, 0) :=
  ⟨sdEmpty_sorted, solver_N0_ok (fun _ => sdEmpty) Aempty rfl⟩

/-- C3 amended: the code performs no dimension check, and the boundary values
N = 0 and N = M reach the decomposition like any other N: the only failure on
that path is the Blanchard-Kahn assert, raised exactly when the reported
stable count differs from N. -/
theorem boundary_no_dimension_check {M : ℕ}
    (schur0 : SqMat K 0 M → SchurResult K 0 M) (A0 : SqMat K 0 M)
    (schurM : SqMat K M 0 → SchurResult K M 0) (AM : SqMat K M 0) :
    ((schur0 A0).n_neg ≠ 0 →
      solver schur0 A0 = .error (.blanchardKahn 0 (schur0 A0).n_neg)) ∧
    ((schurM AM).n_neg ≠ M →
      solver schurM AM = .error (.blanchardKahn M (schurM AM).n_neg)) := by
  constructor <;> intro h <;> rw [solver, solverFromSchur, if_neg h]

theorem boundary_no_dimension_check_witness :
    solver (fun _ => (⟨Aempty, 1, 1⟩ : SchurResult ℚ 0 1)) Aempty
        = .error (.blanchardKahn 0 1) ∧
    solver (fun _ => (⟨Afull, 1, 0⟩ : SchurResult ℚ 1 0)) Afull
        = .error (.blanchardKahn 1 0) :=
  ⟨(boundary_no_dimension_check (fun _ => (⟨Aempty, 1, 1⟩ : SchurResult ℚ 0 1)) Aempty
      (fun _ => (⟨Afull, 1, 0⟩ : SchurResult ℚ 1 0)) Afull).1 (by decide),
   (boundary_no_dimension_check (fun _ => (⟨Aempty, 1, 1⟩ : SchurResult ℚ 0 1)) Aempty
      (fun _ => (⟨Afull, 1, 0⟩ : SchurResult ℚ 1 0)) Afull).2 (by decide)⟩

/-- C6 counterexample: A = diag(1, -1) has exactly one stable eigenvalue,
matching N = 1, and sdSwap is a genuine lhp-sorted Schur decomposition of it
(with the stable eigenvalue -1 leading in U); yet solver does not succeed — it
fails with the degeneracy error, because Q_xs = [0] is singular. -/
theorem stable_count_match_not_sufficient :
    IsSortedSchur AdiagRev sdSwap ∧ sdSwap.n_neg = 1 ∧
      sdSwap.U (Sum.inl 0) (Sum.inl 0) < 0 ∧
      solver (fun _ => sdSwap) AdiagRev = .error .singularMatrix := by
  refine ⟨sdSwap_sorted, rfl, ?_, ?_⟩
  · have h : sdSwap.U (Sum.inl 0) (Sum.inl 0) = (-1 : ℚ) := rfl
    rw [h]
    norm_num
  · exact solver_of_det_zero (fun _ => sdSwap) AdiagRev rfl sdSwap_Qxs_det

/-- C6 amended: when the reported stable count equals N and, in addition, the
stable-to-state block Q_xs of the decomposition is nonsingular, solver
succeeds and returns an N-by-N matrix B and an (M-N)-by-N matrix F (the
shapes are carried by the types). -/
theorem determinate_nonsingular_succeeds {N nJ : ℕ}
    (schur : SqMat K N nJ → SchurResult K N nJ) (A : SqMat K N nJ)
    (hS : IsSortedSchur A (schur A)) (hn : (schur A).n_neg = N)
    (hdet : (Matrix.toBlocks₁₁ (schur A).Q).det ≠ 0) :
    ∃ (B : Matrix (Fin N) (Fin N) K) (F : Matrix (Fin nJ) (Fin N) K),
      solver schur A = .ok (B, F) :=
  ⟨_, _, solver_eq_ok schur A hn hdet⟩

theorem determinate_nonsingular_succeeds_witness :
    (IsSortedSchur Adiag ((fun _ => sdId) Adiag) ∧ sdId.n_neg = 1 ∧
      (Matrix.toBlocks₁₁ sdId.Q).det ≠ 0) ∧
    ∃ (B : Matrix (Fin 1) (Fin 1) ℚ) (F : Matrix (Fin 1) (Fin 1) ℚ),
      solver (fun _ => sdId) Adiag = .ok (B, F) :=
  ⟨⟨sdId_sorted, rfl, by rw [sdId_Qxs_det]; exact one_ne_zero⟩,
    determinate_nonsingular_succeeds (fun _ => sdId) Adiag sdId_sorted rfl
      (by rw [sdId_Qxs_det]; exact one_ne_zero)⟩

/-- Model of the call U, Q, n_neg = linalg.schur(A, sort=lhp) on line 44 with
the buffer holding A threaded through explicitly.  This is the only operation
in the source that receives A; with the scipy default overwrite_a=False it
copies its input, returns freshly allocated factors, and leaves the buffer of
A untouched. -/
def schurCall {N nJ : ℕ} (schur : SqMat K N nJ → SchurResult K N nJ)
    (buffer : SqMat K N nJ) : SchurResult K N nJ × SqMat K N nJ :=
  (schur buffer, buffer)

/-- State-passing model of solver(A, N): the state is the buffer of the caller
holding A.  Line 44 is schurCall; lines 45 to 53 (the assert, the two calls to
np.linalg.solve on sub-blocks of U and Q, the transposes) read only the
freshly returned factors and write to no input buffer, so they are the pure
solverFromSchur.  The pair returned is the result together with the final
contents of the buffer of A. -/
def solverTraced {N nJ : ℕ} (schur : SqMat K N nJ → SchurResult K N nJ)
    (buffer : SqMat K N nJ) :
    Except SolverError (Matrix (Fin N) (Fin N) K × Matrix (Fin nJ) (Fin N) K) ×
      SqMat K N nJ :=
  let c := schurCall schur buffer
  (solverFromSchur c.1, c.2)

/-- C8: solver has no side effects.  In the state-passing model the buffer
holding A is returned unchanged — on the success path and on every failure
path alike, since the equality is unconditional — and the traced result
coincides with the pure function of the inputs. -/
theorem solver_no_side_effects {N nJ : ℕ}
    (schur : SqMat K N nJ → SchurResult K N nJ) (A : SqMat K N nJ) :
    (solverTraced schur A).2 = A ∧ (solverTraced schur A).1 = solver schur A :=
  ⟨rfl, rfl⟩

/-- C9: solver is deterministic.  Modelling the backend as a function (scipy
is deterministic on a fixed build), a second invocation on the buffer left by
the first produces the identical result and buffer — the same pair (B, F) on
success and the same failure with the same diagnostic values on error. -/
theorem solver_deterministic {N nJ : ℕ}
    (schur : SqMat K N nJ → SchurResult K N nJ) (A : SqMat K N nJ) :
    solverTraced schur ((solverTraced schur A).2) = solverTraced schur A :=
  rfl

/-- The 2-by-2 matrix diag(a, b), with the state coordinate first. -/
def diag2 (a b : K) : SqMat K 1 1 :=
  Matrix.fromBlocks (Matrix.of fun _ _ => a) 0 0 (Matrix.of fun _ _ => b)

/-- Core of the closed-form case: for any lhp-sorted Schur decomposition of
diag(a, b) with a < 0 < b, reported stable count 1 and a stable leading
eigenvalue of U, the post-decomposition code returns B = [a] and F = [0].
The leading column of Q is forced to be (±1, 0) and the leading entry of U to
be a, so the two solves divide out the sign. -/
theorem diag_schur_eval {a b : K} (ha : a < 0) (hb : 0 < b)
    (sd : SchurResult K 1 1) (hS : IsSortedSchur (diag2 a b) sd)
    (hn : sd.n_neg = 1) (hsort : sd.U (Sum.inl 0) (Sum.inl 0) < 0) :
    solverFromSchur sd = .ok (Matrix.of fun _ _ => a, 0) := by
  obtain ⟨hA, hO, hUz⟩ := hS
  have hu0 : sd.U (Sum.inr 0) (Sum.inl 0) = 0 := by
    have h := congrFun (congrFun (hUz hn) 0) 0
    simpa [Matrix.toBlocks₂₁] using h
  have hAQ : diag2 a b * sd.Q = sd.Q * sd.U := by
    rw [← hA, Matrix.mul_assoc (sd.Q * sd.U) sd.Qᵀ sd.Q, hO, Matrix.mul_one]
  have e1 : a * sd.Q (Sum.inl 0) (Sum.inl 0) =
      sd.Q (Sum.inl 0) (Sum.inl 0) * sd.U (Sum.inl 0) (Sum.inl 0) := by
    have h := congrFun (congrFun hAQ (Sum.inl 0)) (Sum.inl 0)
    simpa [Matrix.mul_apply, Fintype.sum_sum_type, diag2, hu0] using h
  have e2 : b * sd.Q (Sum.inr 0) (Sum.inl 0) =
      sd.Q (Sum.inr 0) (Sum.inl 0) * sd.U (Sum.inl 0) (Sum.inl 0) := by
    have h := congrFun (congrFun hAQ (Sum.inr 0)) (Sum.inl 0)
    simpa [Matrix.mul_apply, Fintype.sum_sum_type, diag2, hu0] using h
  have e3 : sd.Q (Sum.inl 0) (Sum.inl 0) * sd.Q (Sum.inl 0) (Sum.inl 0) +
      sd.Q (Sum.inr 0) (Sum.inl 0) * sd.Q (Sum.inr 0) (Sum.inl 0) = 1 := by
    have h := congrFun (congrFun hO (Sum.inl 0)) (Sum.inl 0)
    simpa [Matrix.mul_apply, Fintype.sum_sum_type, Matrix.one_apply] using h
  have hu : sd.U (Sum.inl 0) (Sum.inl 0) = a := by
    have h0 : sd.Q (Sum.inl 0) (Sum.inl 0) *
        (sd.U (Sum.inl 0) (Sum.inl 0) - a) = 0 := by
      linear_combination -e1
    rcases mul_eq_zero.mp h0 with hq00 | hsub
    · exfalso
      have hq10sq : sd.Q (Sum.inr 0) (Sum.inl 0) * sd.Q (Sum.inr 0) (Sum.inl 0) = 1 := by
        rw [hq00] at e3
        simpa using e3
      have h2 : sd.Q (Sum.inr 0) (Sum.inl 0) *
          (sd.U (Sum.inl 0) (Sum.inl 0) - b) = 0 := by
        linear_combination -e2
      rcases mul_eq_zero.mp h2 with h | h
      · rw [h] at hq10sq
        simp at hq10sq
      · have hub := sub_eq_zero.mp h
        rw [hub] at hsort
        exact absurd hsort (not_lt.mpr hb.le)
    · exact sub_eq_zero.mp hsub
  have hq10 : sd.Q (Sum.inr 0) (Sum.inl 0) = 0 := by
    rw [hu] at e2
    have h2 : sd.Q (Sum.inr 0) (Sum.inl 0) * (b - a) = 0 := by
      linear_combination e2
    rcases mul_eq_zero.mp h2 with h | h
    · exact h
    · exact absurd h (sub_ne_zero.mpr (ne_of_gt (lt_trans ha hb)))
  have hq00 : sd.Q (Sum.inl 0) (Sum.inl 0) ≠ 0 := by
    intro h
    rw [h, hq10] at e3
    simp at e3
  have hdet : (Matrix.toBlocks₁₁ sd.Q).det ≠ 0 := by
    rw [Matrix.det_fin_one]
    exact hq00
  rw [solverFromSchur_eq_ok sd hn hdet]
  refine congrArg Except.ok (congrArg₂ Prod.mk ?_ ?_)
  · ext i j
    simp [Matrix.mul_apply, Fin.sum_univ_one, matInv, Matrix.det_fin_one,
      Matrix.adjugate_fin_one, Matrix.smul_apply, Matrix.one_apply,
      Matrix.toBlocks₁₁, Fin.eq_zero, hu]
    field_simp
  · ext i j
    simp [Matrix.mul_apply, Fin.sum_univ_one, matInv, Matrix.det_fin_one,
      Matrix.adjugate_fin_one, Matrix.smul_apply, Matrix.one_apply,
      Matrix.toBlocks₂₁, Matrix.toBlocks₁₁, Fin.eq_zero, hq10]

/-- C5: for the 2-by-2 diagonal matrix A = diag(a, b) with a < 0 < b and state
dimension N = 1, solver succeeds on any lhp-sorted Schur decomposition of A
(reported count 1, stable eigenvalue leading) and returns B = [a] and
F = [0]: the jump variable is decoupled and jumps immediately to zero. -/
theorem closed_form_diag {a b : K} (ha : a < 0) (hb : 0 < b)
    (schur : SqMat K 1 1 → SchurResult K 1 1)
    (hS : IsSortedSchur (diag2 a b) (schur (diag2 a b)))
    (hn : (schur (diag2 a b)).n_neg = 1)
    (hsort : (schur (diag2 a b)).U (Sum.inl 0) (Sum.inl 0) < 0) :
    solver schur (diag2 a b) = .ok (Matrix.of fun _ _ => a, 0) :=
  diag_schur_eval ha hb (schur (diag2 a b)) hS hn hsort

theorem closed_form_diag_witness :
    ((-1 : ℚ) < 0 ∧ (0 : ℚ) < 1 ∧
      IsSortedSchur (diag2 (-1) (1 : ℚ)) ((fun _ => sdId) (diag2 (-1) (1 : ℚ))) ∧
      ((fun _ => sdId) (diag2 (-1) (1 : ℚ))).n_neg = 1 ∧
      ((fun _ => sdId) (diag2 (-1) (1 : ℚ))).U (Sum.inl 0) (Sum.inl 0) < 0) ∧
    solver (fun _ => sdId) (diag2 (-1) (1 : ℚ)) =
      .ok (Matrix.of fun _ _ => (-1 : ℚ), 0) :=
  ⟨⟨by norm_num, by norm_num, sdId_sorted, rfl,
      by norm_num [show sdId.U (Sum.inl 0) (Sum.inl 0) = (-1 : ℚ) from rfl]⟩,
    closed_form_diag (by norm_num) (by norm_num) (fun _ => sdId) sdId_sorted rfl
      (by norm_num [show sdId.U (Sum.inl 0) (Sum.inl 0) = (-1 : ℚ) from rfl])⟩

end CtReSolver
